import Mathlib

/-!
Verification of the experiment-orchestration engine of the LMT backtesting
repository (backend/). The Python sources are shallowly embedded: datetimes
become integer wall-clock values with an optional UTC offset, floats become
rationals, raised exceptions become `Except.error`, and the `asyncio`
rate-limiter is modelled as a labelled transition system. Each definition
mirrors one function of the source tree; theorems settle the stated
properties of the specification against these definitions.
-/

namespace Backtest

/-- Python `datetime`: a wall-clock value (in minutes) together with an
optional UTC offset in minutes. `tz = none` models a naive datetime,
`tz = some o` a timezone-aware one with offset `o`. -/
structure PyDatetime where
  wall : Int
  tz : Option Int
deriving DecidableEq, Repr

/-- Absolute (UTC) instant of a datetime, meaningful for aware values:
wall clock minus the UTC offset. -/
def PyDatetime.toUTC (d : PyDatetime) : Int :=
  d.wall - d.tz.getD 0

/-- Python `d.replace(tzinfo=timezone.utc)`: attach UTC keeping the wall
clock unchanged. -/
def PyDatetime.replaceTzUTC (d : PyDatetime) : PyDatetime :=
  { d with tz := some 0 }

/-- Python `d + timedelta(minutes=m)`: shifts the wall clock, keeping the
tzinfo. -/
def PyDatetime.addMinutes (d : PyDatetime) (m : Int) : PyDatetime :=
  { d with wall := d.wall + m }

/-- Normalization performed by `generate_intervals` (backend/utils/time.py):
a naive datetime is reinterpreted as UTC, an aware one is kept. -/
def normalizeUTC (d : PyDatetime) : PyDatetime :=
  if d.tz = none then d.replaceTzUTC else d

/-- Python comparison `a <= b` between two datetimes: defined when both are
naive or both aware (`TypeError` between naive and aware is modelled as
`none`). -/
def pyLe (a b : PyDatetime) : Option Bool :=
  match a.tz, b.tz with
  | none, none => some (decide (a.wall ≤ b.wall))
  | some _, some _ => some (decide (a.toUTC ≤ b.toUTC))
  | _, _ => none

@[simp] theorem toUTC_addMinutes (d : PyDatetime) (m : Int) :
    (d.addMinutes m).toUTC = d.toUTC + m := by
  simp [PyDatetime.toUTC, PyDatetime.addMinutes]
  omega

@[simp] theorem addMinutes_zero (d : PyDatetime) : d.addMinutes 0 = d := by
  simp [PyDatetime.addMinutes]

theorem addMinutes_addMinutes (d : PyDatetime) (a b : Int) :
    (d.addMinutes a).addMinutes b = d.addMinutes (a + b) := by
  simp [PyDatetime.addMinutes, Int.add_assoc]

@[simp] theorem tz_addMinutes (d : PyDatetime) (m : Int) :
    (d.addMinutes m).tz = d.tz := rfl

/-- The `while current_time <= end_time` loop of `generate_intervals`
(backend/utils/time.py, lines 31-37). `endUTC` is the absolute instant of
the normalized end time; the positivity of the step justifies termination. -/
def intervalLoop (endUTC step : Int) (hstep : 0 < step) (cur : PyDatetime) :
    List PyDatetime :=
  if cur.toUTC ≤ endUTC then
    cur :: intervalLoop endUTC step hstep (cur.addMinutes step)
  else []
termination_by (endUTC + step - cur.toUTC).toNat
decreasing_by
  simp only [toUTC_addMinutes]
  omega

/-- `generate_intervals` from backend/utils/time.py: the two `raise
ValueError` paths become `Except.error` with the raised message. -/
def generate_intervals (start_time end_time : PyDatetime)
    (interval_minutes : Int) : Except String (List PyDatetime) :=
  if h : interval_minutes ≤ 0 then
    .error "interval_minutes must be positive"
  else
    let s := normalizeUTC start_time
    let e := normalizeUTC end_time
    if e.toUTC < s.toUTC then
      .error "start_time must be before or equal to end_time"
    else
      .ok (intervalLoop e.toUTC interval_minutes (by omega) s)

theorem intervalLoop_getElem? (endUTC step : Int) (h : 0 < step)
    (cur : PyDatetime) (i : Nat) :
    (intervalLoop endUTC step h cur)[i]? =
      if cur.toUTC + (i : Int) * step ≤ endUTC then
        some (cur.addMinutes ((i : Int) * step))
      else none := by
  induction i generalizing cur with
  | zero =>
    rw [intervalLoop]
    by_cases hc : cur.toUTC ≤ endUTC
    · simp [hc]
    · have : ¬ (cur.toUTC + (0 : Int) * step ≤ endUTC) := by omega
      simp [hc, this]
  | succ i ih =>
    rw [intervalLoop]
    by_cases hc : cur.toUTC ≤ endUTC
    · simp only [hc, if_true, List.getElem?_cons_succ]
      rw [ih]
      have harith : (cur.addMinutes step).toUTC + (i : Int) * step =
          cur.toUTC + ((i : Nat) + 1 : Int) * step := by
        simp only [toUTC_addMinutes]; ring
      have hval : (cur.addMinutes step).addMinutes ((i : Int) * step) =
          cur.addMinutes (((i : Nat) + 1 : Int) * step) := by
        rw [addMinutes_addMinutes]
        congr 1
        ring
      rw [harith, hval]
      push_cast
      rfl
    · have hcast : (((i + 1 : Nat)) : Int) * step = (i : Int) * step + step := by
        push_cast
        ring
      have hpos : (0 : Int) ≤ (i : Int) * step := by positivity
      simp only [hc, if_false, List.getElem?_nil]
      rw [if_neg (by rw [hcast]; omega)]

/-- C5: for all (start, end, step) with start ≤ end and step > 0,
`generate_intervals` returns the non-empty, strictly increasing, evenly
spaced grid start, start+step, … of exactly the grid points ≤ end (end
included only on a step boundary, start = end giving one point), it fails
with a configuration error exactly when step ≤ 0 or start > end, and naive
inputs are normalized to UTC. -/
theorem C5_interval_grid (s e : PyDatetime) (m : Int) :
    (m ≤ 0 → generate_intervals s e m = .error "interval_minutes must be positive")
    ∧ (0 < m → (normalizeUTC e).toUTC < (normalizeUTC s).toUTC →
        generate_intervals s e m = .error "start_time must be before or equal to end_time")
    ∧ (0 < m → (normalizeUTC s).toUTC ≤ (normalizeUTC e).toUTC →
        ∃ l, generate_intervals s e m = .ok l
          ∧ (∀ i : Nat, l[i]? =
              if (normalizeUTC s).toUTC + (i : Int) * m ≤ (normalizeUTC e).toUTC
              then some ((normalizeUTC s).addMinutes ((i : Int) * m)) else none)
          ∧ l ≠ []
          ∧ l[0]? = some (normalizeUTC s)
          ∧ (∀ x ∈ l, x.toUTC ≤ (normalizeUTC e).toUTC)
          ∧ (∀ i : Nat, i + 1 < l.length →
              ∃ a b, l[i]? = some a ∧ l[i + 1]? = some b
                ∧ a.toUTC < b.toUTC ∧ b.toUTC = a.toUTC + m)
          ∧ ((normalizeUTC s).toUTC = (normalizeUTC e).toUTC → l.length = 1)
          ∧ (s.tz = none → ∀ x ∈ l, x.tz = some 0)) := by
  refine ⟨fun hm => by simp [generate_intervals, hm], fun hm hlt => ?_, fun hm hle => ?_⟩
  · rw [generate_intervals, dif_neg (by omega), if_pos (by omega)]
  · rw [generate_intervals, dif_neg (by omega), if_neg (by omega)]
    set sN := normalizeUTC s with hsN
    set eN := normalizeUTC e with heN
    refine ⟨_, rfl, ?_⟩
    have key := intervalLoop_getElem? eN.toUTC m (by omega) sN
    have h0 : (intervalLoop eN.toUTC m (by omega : (0:Int) < m) sN)[0]? = some sN := by
      rw [key 0]
      simp [hle]
    refine ⟨key, ?_, h0, ?_, ?_, ?_, ?_⟩
    · intro hnil
      rw [hnil] at h0
      simp at h0
    · intro x hx
      rw [List.mem_iff_getElem?] at hx
      obtain ⟨i, hi⟩ := hx
      rw [key i] at hi
      by_cases hcond : sN.toUTC + (i : Int) * m ≤ eN.toUTC
      · rw [if_pos hcond] at hi
        cases hi
        simp only [toUTC_addMinutes]
        exact hcond
      · rw [if_neg hcond] at hi
        cases hi
    · intro i hi
      have hi1 : (intervalLoop eN.toUTC m (by omega : (0:Int) < m) sN)[i + 1]? ≠ none := by
        rw [ne_eq, List.getElem?_eq_none_iff]
        omega
      rw [key (i + 1)] at hi1
      by_cases hcond : sN.toUTC + ((i + 1 : Nat) : Int) * m ≤ eN.toUTC
      · have hcond0 : sN.toUTC + (i : Int) * m ≤ eN.toUTC := by
          have : ((i + 1 : Nat) : Int) * m = (i : Int) * m + m := by push_cast; ring
          omega
        refine ⟨sN.addMinutes ((i : Int) * m), sN.addMinutes (((i + 1 : Nat)) * m),
          by rw [key i, if_pos hcond0], by rw [key (i + 1), if_pos hcond], ?_, ?_⟩
        · simp only [toUTC_addMinutes]
          have : ((i + 1 : Nat) : Int) * m = (i : Int) * m + m := by push_cast; ring
          omega
        · simp only [toUTC_addMinutes]
          have : ((i + 1 : Nat) : Int) * m = (i : Int) * m + m := by push_cast; ring
          omega
      · rw [if_neg hcond] at hi1
        exact absurd rfl hi1
    · intro heq
      have h1 : (intervalLoop eN.toUTC m (by omega : (0:Int) < m) sN)[1]? = none := by
        rw [key 1]
        rw [if_neg (by push_cast; omega)]
      have hlen1 : (intervalLoop eN.toUTC m (by omega : (0:Int) < m) sN).length ≤ 1 := by
        rwa [List.getElem?_eq_none_iff] at h1
      have hlen0 : 0 < (intervalLoop eN.toUTC m (by omega : (0:Int) < m) sN).length := by
        by_contra hz
        rw [not_lt, Nat.le_zero] at hz
        rw [List.getElem?_eq_none_iff.mpr (by omega)] at h0
        cases h0
      omega
    · intro htz x hx
      rw [List.mem_iff_getElem?] at hx
      obtain ⟨i, hi⟩ := hx
      rw [key i] at hi
      by_cases hcond : sN.toUTC + (i : Int) * m ≤ eN.toUTC
      · rw [if_pos hcond] at hi
        cases hi
        rw [tz_addMinutes, hsN]
        simp [normalizeUTC, htz, PyDatetime.replaceTzUTC]
      · rw [if_neg hcond] at hi
        cases hi

/-- Witness for C5 at start 10:00, end 12:00, step 60 minutes (naive inputs,
wall clock in minutes): the grid is returned and is non-empty with first
element the normalized start. -/
theorem C5_interval_grid_witness :
    (0 : Int) < 60
    ∧ (normalizeUTC ⟨600, none⟩).toUTC ≤ (normalizeUTC ⟨720, none⟩).toUTC
    ∧ ∃ l, generate_intervals ⟨600, none⟩ ⟨720, none⟩ 60 = .ok l
        ∧ l ≠ [] ∧ l[0]? = some (normalizeUTC ⟨600, none⟩) := by
  refine ⟨by norm_num, by decide, ?_⟩
  obtain ⟨l, hok, _, hne, h0, -⟩ :=
    (C5_interval_grid ⟨600, none⟩ ⟨720, none⟩ 60).2.2 (by norm_num) (by decide)
  exact ⟨l, hok, hne, h0⟩

/-! Data model (backend/models.py). Python floats are modelled as rationals. -/

/-- SearchSnippet from backend/models.py: a single news article. -/
structure SearchSnippet where
  id : String
  title : String
  url : String
  text : String
  published_date : String
  score : ℚ
deriving DecidableEq, Repr

/-- DecisionEnum from backend/models.py. -/
inductive DecisionEnum where
  | YES
  | NO
deriving DecidableEq, Repr

/-- Modelled from the spec: `CodeExecutionTrace`. The class is imported by
backend/orchestrator/trader.py from backend.models and exercised by the
tests, but its declaration is missing from the models file in the tree;
the fields follow spec §3 ExecutionTrace (generated procedure body, raw
output, exit status, success flag, elapsed time, error message, attempt
index), matching the trace dictionaries built in daytona_client.py and
trader.py. -/
structure CodeExecutionTrace where
  code : String
  raw_output : String
  exit_code : Int
  executed_successfully : Bool
  execution_time_ms : Option ℚ
  error_message : Option String
  attempt_number : Nat
deriving DecidableEq, Repr

/-- AgentDecision from backend/models.py; the optional `execution_trace`
field is modelled from the spec (Decision: "optional ExecutionTrace") and
from its use in trader.py, the models file in the tree lacking it. -/
structure AgentDecision where
  decision : DecisionEnum
  confidence : ℚ
  rationale : String
  relevant_evidence_ids : List String
  execution_trace : Option CodeExecutionTrace := none
deriving DecidableEq, Repr

/-- MarketState from backend/models.py. -/
structure MarketState where
  timestamp : PyDatetime
  price : ℚ
  volume : Option ℚ := none
deriving DecidableEq, Repr

/-- IntervalContext from backend/models.py; the `Dict[str, Any]` market
metadata is passed through opaquely by the orchestrator and is modelled as
string key-value pairs. -/
structure IntervalContext where
  time : PyDatetime
  market_info : List (String × String)
  current_market_state : MarketState
  news : List SearchSnippet
  recent_history : List MarketState
deriving DecidableEq, Repr

/-- IntervalResult from backend/models.py. -/
structure IntervalResult where
  timestamp : PyDatetime
  market_state : MarketState
  decisions : List AgentDecision
  aggregated_decision : DecisionEnum
  aggregated_confidence : ℚ
deriving DecidableEq, Repr

/-! Context building: the pure slice of `Orchestrator._process_interval`
(backend/orchestrator/core.py, lines 249-271) from the gathered search
results to the IntervalContext. Python's `datetime.fromisoformat` is
abstracted as a parameter `fromiso : String → Option PyDatetime`
(`none` models a raised ValueError). -/

/-- One iteration of the filtering loop (core.py lines 250-258): an empty
`published_date` is falsy and skipped; a parse failure is caught and the
snippet dropped; comparing a parsed naive datetime with the aware interval
time is a TypeError that the `except (ValueError, AttributeError)` clause
does not catch, so it propagates. -/
def snippetKeep (fromiso : String → Option PyDatetime) (interval_time : PyDatetime)
    (s : SearchSnippet) : Except String Bool :=
  if s.published_date ≠ "" then
    match fromiso (s.published_date.replace "Z" "+00:00") with
    | none => .ok false
    | some pub =>
      match pyLe pub interval_time with
      | none => .error "TypeError: cannot compare offset-naive and offset-aware datetimes"
      | some b => .ok b
  else .ok false

/-- The filtering loop over all gathered snippets, in order; an uncaught
TypeError from any iteration aborts the whole interval task. -/
def filterSnippets (fromiso : String → Option PyDatetime) (interval_time : PyDatetime) :
    List SearchSnippet → Except String (List SearchSnippet)
  | [] => .ok []
  | s :: rest =>
    match snippetKeep fromiso interval_time s with
    | .error e => .error e
    | .ok b =>
      match filterSnippets fromiso interval_time rest with
      | .error e => .error e
      | .ok tail => .ok (if b then s :: tail else tail)

/-- Python dict assignment `d[k] = v` on an insertion-ordered dict held as a
key-value list: an existing key keeps its position but its value is
overwritten; a new key is appended. -/
def dictAssign (d : List (String × SearchSnippet)) (k : String) (v : SearchSnippet) :
    List (String × SearchSnippet) :=
  if d.any (fun p => p.1 = k) then
    d.map (fun p => if p.1 = k then (p.1, v) else p)
  else d ++ [(k, v)]

/-- `list({s.url: s for s in l}.values())` (core.py line 261): build the
insertion-ordered dict keyed by url, then take its values. -/
def dedupeByUrl (l : List SearchSnippet) : List SearchSnippet :=
  (l.foldl (fun d s => dictAssign d s.url s) []).map Prod.snd

/-- Context construction (core.py lines 249-271): filter by publication
cutoff, deduplicate by url, assemble the IntervalContext (recent_history is
always passed empty in the parallel pipeline). -/
def buildContext (fromiso : String → Option PyDatetime) (interval_time : PyDatetime)
    (market_info : List (String × String)) (market_state : MarketState)
    (search_results : List SearchSnippet) : Except String IntervalContext :=
  match filterSnippets fromiso interval_time search_results with
  | .error e => .error e
  | .ok filtered =>
    .ok { time := interval_time, market_info := market_info,
          current_market_state := market_state, news := dedupeByUrl filtered,
          recent_history := [] }

/-- `sum(1 for d in decisions if d.decision == DecisionEnum.YES)`
(core.py line 294). -/
def yesCount (ds : List AgentDecision) : Nat :=
  (ds.filter (fun d => d.decision = DecisionEnum.YES)).length

/-- Decision aggregation (core.py lines 293-299): majority vote with ties
toward YES and mean confidence on a non-empty list, NO at confidence 0 on
an empty one. -/
def aggregateDecisions (ds : List AgentDecision) : DecisionEnum × ℚ :=
  if ds.isEmpty then (DecisionEnum.NO, 0)
  else
    ((if ds.length - yesCount ds ≤ yesCount ds then DecisionEnum.YES else DecisionEnum.NO),
     (ds.map (fun d => d.confidence)).sum / (ds.length : ℚ))

/-- Result assembly for one interval (core.py lines 249-308): context build
followed by aggregation of whatever decisions the simulations produced
(failed simulations are simply absent from `decisions`). -/
def processIntervalResult (fromiso : String → Option PyDatetime)
    (interval_time : PyDatetime) (market_info : List (String × String))
    (market_state : MarketState) (search_results : List SearchSnippet)
    (decisions : List AgentDecision) : Except String IntervalResult :=
  match buildContext fromiso interval_time market_info market_state search_results with
  | .error e => .error e
  | .ok _ctx =>
    .ok { timestamp := interval_time, market_state := market_state,
          decisions := decisions,
          aggregated_decision := (aggregateDecisions decisions).1,
          aggregated_confidence := (aggregateDecisions decisions).2 }

/-- Invariant of the insertion-ordered dict built by `dedupeByUrl` after the
snippets of `l0` have been folded in: keys are distinct, every entry is
keyed by its value's url, stores the last occurrence of that url in `l0`,
and every url of `l0` has an entry. -/
def DictInv (l0 : List SearchSnippet) (d : List (String × SearchSnippet)) : Prop :=
  (d.map Prod.fst).Nodup
  ∧ (∀ p ∈ d, p.2.url = p.1 ∧ p.2 ∈ l0
      ∧ (l0.filter (fun s => s.url = p.1)).getLast? = some p.2)
  ∧ (∀ s ∈ l0, ∃ p ∈ d, p.1 = s.url)

theorem dictAssign_inv (l0 : List SearchSnippet) (d : List (String × SearchSnippet))
    (s : SearchSnippet) (h : DictInv l0 d) :
    DictInv (l0 ++ [s]) (dictAssign d s.url s) := by
  obtain ⟨hnd, hent, hcomp⟩ := h
  rw [dictAssign]
  by_cases hany : d.any (fun p => p.1 = s.url) = true
  · rw [if_pos hany]
    refine ⟨?_, ?_, ?_⟩
    · have hkeys : (d.map fun p => if p.1 = s.url then (p.1, s) else p).map Prod.fst
          = d.map Prod.fst := by
        rw [List.map_map]
        apply List.map_congr_left
        intro p hp
        by_cases hk : p.1 = s.url <;> simp [hk]
      rw [hkeys]
      exact hnd
    · intro q hq
      rw [List.mem_map] at hq
      obtain ⟨p, hp, rfl⟩ := hq
      obtain ⟨hurl, hmem, hlast⟩ := hent p hp
      by_cases hk : p.1 = s.url
      · rw [if_pos hk]
        refine ⟨hk.symm, List.mem_append_right _ (by simp), ?_⟩
        show ((l0 ++ [s]).filter (fun x => x.url = p.1)).getLast? = some s
        rw [hk, List.filter_append]
        have hsing : [s].filter (fun x => x.url = s.url) = [s] := by simp
        rw [hsing, List.getLast?_concat]
      · rw [if_neg hk]
        refine ⟨hurl, List.mem_append_left _ hmem, ?_⟩
        show ((l0 ++ [s]).filter (fun x => x.url = p.1)).getLast? = some p.2
        rw [List.filter_append]
        have hsing : [s].filter (fun x => x.url = p.1) = [] := by
          simp [Ne.symm hk]
        rw [hsing, List.append_nil]
        exact hlast
    · intro s0 hs0
      rw [List.mem_append] at hs0
      rcases hs0 with hs0 | hs0
      · obtain ⟨p, hp, hpk⟩ := hcomp s0 hs0
        have hfst : (if p.1 = s.url then (p.1, s) else p).1 = p.1 := by
          by_cases hk : p.1 = s.url
          · rw [if_pos hk]
          · rw [if_neg hk]
        refine ⟨(if p.1 = s.url then (p.1, s) else p), List.mem_map_of_mem _ hp, ?_⟩
        rw [hfst]
        exact hpk
      · rw [List.mem_singleton] at hs0
        rw [List.any_eq_true] at hany
        obtain ⟨p, hp, hpk⟩ := hany
        simp only [decide_eq_true_eq] at hpk
        refine ⟨(p.1, s), ?_, by rw [hpk, hs0]⟩
        rw [List.mem_map]
        exact ⟨p, hp, by rw [if_pos hpk]⟩
  · rw [if_neg hany]
    have hall : ∀ p ∈ d, p.1 ≠ s.url := by
      intro p hp hpk
      exact hany (List.any_eq_true.mpr ⟨p, hp, by simp [hpk]⟩)
    have hnot : s.url ∉ d.map Prod.fst := by
      rw [List.mem_map]
      rintro ⟨p, hp, hpk⟩
      exact hall p hp hpk
    refine ⟨?_, ?_, ?_⟩
    · rw [List.map_append, List.nodup_append]
      exact ⟨hnd, by simp, by simp [List.disjoint_right, hnot]⟩
    · intro q hq
      rw [List.mem_append] at hq
      rcases hq with hq | hq
      · obtain ⟨hurl, hmem, hlast⟩ := hent q hq
        refine ⟨hurl, List.mem_append_left _ hmem, ?_⟩
        rw [List.filter_append]
        have : [s].filter (fun x => x.url = q.1) = [] := by
          simp
          intro hcontra
          exact hall q hq (by rw [hcontra])
        rw [this, List.append_nil]
        exact hlast
      · rw [List.mem_singleton] at hq
        subst hq
        refine ⟨rfl, by simp, ?_⟩
        have hl0 : l0.filter (fun x => x.url = s.url) = [] := by
          rw [List.filter_eq_nil_iff]
          intro a ha
          simp only [decide_eq_true_eq]
          intro hcontra
          obtain ⟨p, hp, hpk⟩ := hcomp a ha
          exact hall p hp (by rw [hpk, hcontra])
        rw [List.filter_append, hl0, List.nil_append]
        simp
    · intro s0 hs0
      rw [List.mem_append] at hs0
      rcases hs0 with hs0 | hs0
      · obtain ⟨p, hp, hpk⟩ := hcomp s0 hs0
        exact ⟨p, List.mem_append_left _ hp, hpk⟩
      · rw [List.mem_singleton] at hs0
        subst hs0
        exact ⟨(s0.url, s0), List.mem_append_right _ (by simp), rfl⟩

theorem foldl_dictAssign_inv (l : List SearchSnippet) :
    ∀ (l0 : List SearchSnippet) (d : List (String × SearchSnippet)), DictInv l0 d →
      DictInv (l0 ++ l) (l.foldl (fun d s => dictAssign d s.url s) d) := by
  induction l with
  | nil =>
    intro l0 d h
    simpa using h
  | cons s rest ih =>
    intro l0 d h
    have hstep := dictAssign_inv l0 d s h
    have := ih (l0 ++ [s]) (dictAssign d s.url s) hstep
    simpa [List.append_assoc] using this

theorem dedupeByUrl_spec (l : List SearchSnippet) :
    ((dedupeByUrl l).map (fun s => s.url)).Nodup
    ∧ ∀ x ∈ dedupeByUrl l,
        x ∈ l ∧ (l.filter (fun s => s.url = x.url)).getLast? = some x := by
  have h := foldl_dictAssign_inv l [] [] ⟨by simp, by simp, by simp⟩
  rw [List.nil_append] at h
  obtain ⟨hnd, hent, -⟩ := h
  constructor
  · have hmaps : ((l.foldl (fun d s => dictAssign d s.url s) []).map Prod.snd).map
        (fun s => s.url) = (l.foldl (fun d s => dictAssign d s.url s) []).map Prod.fst := by
      rw [List.map_map]
      apply List.map_congr_left
      intro p hp
      exact (hent p hp).1
    rw [dedupeByUrl, hmaps]
    exact hnd
  · intro x hx
    rw [dedupeByUrl, List.mem_map] at hx
    obtain ⟨p, hp, rfl⟩ := hx
    obtain ⟨hurl, hmem, hlast⟩ := hent p hp
    refine ⟨hmem, ?_⟩
    rw [hurl]
    exact hlast

theorem filterSnippets_mem (fromiso : String → Option PyDatetime)
    (t : PyDatetime) (l fil : List SearchSnippet)
    (h : filterSnippets fromiso t l = .ok fil) :
    ∀ s ∈ fil, s ∈ l ∧ snippetKeep fromiso t s = .ok true := by
  induction l generalizing fil with
  | nil =>
    rw [filterSnippets] at h
    cases h
    intro s hs
    cases hs
  | cons a rest ih =>
    rw [filterSnippets] at h
    split at h
    · cases h
    · rename_i b hk
      split at h
      · cases h
      · rename_i tail hrest
        cases h
        intro s hs
        cases b
        · simp only [Bool.false_eq_true, if_false] at hs
          obtain ⟨hmem, hkeep⟩ := ih tail hrest s hs
          exact ⟨List.mem_cons_of_mem _ hmem, hkeep⟩
        · simp only [if_true] at hs
          rcases List.mem_cons.mp hs with rfl | hmem
          · exact ⟨List.mem_cons_self _ _, hk⟩
          · obtain ⟨hmem2, hkeep⟩ := ih tail hrest s hmem
            exact ⟨List.mem_cons_of_mem _ hmem2, hkeep⟩

theorem snippetKeep_ok_true (fromiso : String → Option PyDatetime)
    (t : PyDatetime) (s : SearchSnippet)
    (h : snippetKeep fromiso t s = .ok true) :
    s.published_date ≠ ""
    ∧ ∃ pub, fromiso (s.published_date.replace "Z" "+00:00") = some pub
        ∧ pyLe pub t = some true := by
  rw [snippetKeep] at h
  by_cases hne : s.published_date ≠ ""
  · rw [if_pos hne] at h
    split at h
    · cases h
    · rename_i pub hiso
      split at h
      · cases h
      · rename_i b hle
        cases h
        exact ⟨hne, pub, hiso, hle⟩
  · rw [if_neg hne] at h
    cases h

theorem buildContext_ok (fromiso : String → Option PyDatetime)
    (t : PyDatetime) (mi : List (String × String)) (ms : MarketState)
    (sr : List SearchSnippet) (ctx : IntervalContext)
    (h : buildContext fromiso t mi ms sr = .ok ctx) :
    ∃ fil, filterSnippets fromiso t sr = .ok fil ∧ ctx.news = dedupeByUrl fil := by
  rw [buildContext] at h
  split at h
  · cases h
  · rename_i fil hfil
    cases h
    exact ⟨fil, hfil, rfl⟩

/-- C1: every Evidence item of a built context has a published timestamp
parsed by `fromisoformat` that is at or before the owning interval's
timestamp, and any item parsed to a later timestamp is excluded from the
context even if the search source returned it. -/
theorem C1_no_lookahead (fromiso : String → Option PyDatetime) (t : PyDatetime)
    (mi : List (String × String)) (ms : MarketState) (sr : List SearchSnippet)
    (ctx : IntervalContext) (h : buildContext fromiso t mi ms sr = .ok ctx) :
    (∀ s ∈ ctx.news, ∃ pub, fromiso (s.published_date.replace "Z" "+00:00") = some pub
        ∧ pyLe pub t = some true)
    ∧ (∀ s ∈ sr, ∀ pub, fromiso (s.published_date.replace "Z" "+00:00") = some pub →
        pyLe pub t = some false → s ∉ ctx.news) := by
  obtain ⟨fil, hfil, hnews⟩ := buildContext_ok fromiso t mi ms sr ctx h
  have hmem : ∀ s ∈ ctx.news, ∃ pub,
      fromiso (s.published_date.replace "Z" "+00:00") = some pub
      ∧ pyLe pub t = some true := by
    intro s hs
    rw [hnews] at hs
    obtain ⟨hsfil, -⟩ := (dedupeByUrl_spec fil).2 s hs
    obtain ⟨-, hkeep⟩ := filterSnippets_mem fromiso t sr fil hfil s hsfil
    obtain ⟨-, pub, hiso, hle⟩ := snippetKeep_ok_true fromiso t s hkeep
    exact ⟨pub, hiso, hle⟩
  refine ⟨hmem, ?_⟩
  intro s _ pub hiso hle hs
  obtain ⟨pub2, hiso2, hle2⟩ := hmem s hs
  rw [hiso] at hiso2
  cases hiso2
  rw [hle] at hle2
  cases hle2

/-- Witness for C1: a concrete context built from two snippets keeps only
those published at or before the interval time. -/
theorem C1_no_lookahead_witness :
    ∃ pub, (fun _ => some (⟨0, some 0⟩ : PyDatetime)) (("d2" : String).replace "Z" "+00:00")
        = some pub ∧ pyLe pub ⟨10, some 0⟩ = some true := by
  have h := C1_no_lookahead (fun _ => some ⟨0, some 0⟩) ⟨10, some 0⟩ []
    ⟨⟨10, some 0⟩, 1/2, none⟩ [⟨"a", "t1", "u", "x1", "d1", 0⟩, ⟨"b", "t2", "u", "x2", "d2", 0⟩]
    ⟨⟨10, some 0⟩, [], ⟨⟨10, some 0⟩, 1/2, none⟩, [⟨"b", "t2", "u", "x2", "d2", 0⟩], []⟩
    rfl
  exact h.1 ⟨"b", "t2", "u", "x2", "d2", 0⟩ (by simp)

/-- C10 (implicit): Evidence items whose published_date is empty or not
parseable are excluded entirely, so every item of a built context has a
non-empty, parseable published timestamp. -/
theorem C10_parseable_dates (fromiso : String → Option PyDatetime) (t : PyDatetime)
    (mi : List (String × String)) (ms : MarketState) (sr : List SearchSnippet)
    (ctx : IntervalContext) (h : buildContext fromiso t mi ms sr = .ok ctx) :
    ∀ s ∈ ctx.news, s.published_date ≠ ""
      ∧ (fromiso (s.published_date.replace "Z" "+00:00")).isSome = true := by
  obtain ⟨fil, hfil, hnews⟩ := buildContext_ok fromiso t mi ms sr ctx h
  intro s hs
  rw [hnews] at hs
  obtain ⟨hsfil, -⟩ := (dedupeByUrl_spec fil).2 s hs
  obtain ⟨-, hkeep⟩ := filterSnippets_mem fromiso t sr fil hfil s hsfil
  obtain ⟨hne, pub, hiso, -⟩ := snippetKeep_ok_true fromiso t s hkeep
  exact ⟨hne, by rw [hiso]; rfl⟩

/-- Witness for C10 at the same concrete build as the C1 witness. -/
theorem C10_parseable_dates_witness :
    ("d2" : String) ≠ ""
    ∧ ((fun _ => some (⟨0, some 0⟩ : PyDatetime))
        (("d2" : String).replace "Z" "+00:00")).isSome = true := by
  have h := C10_parseable_dates (fun _ => some ⟨0, some 0⟩) ⟨10, some 0⟩ []
    ⟨⟨10, some 0⟩, 1/2, none⟩ [⟨"a", "t1", "u", "x1", "d1", 0⟩, ⟨"b", "t2", "u", "x2", "d2", 0⟩]
    ⟨⟨10, some 0⟩, [], ⟨⟨10, some 0⟩, 1/2, none⟩, [⟨"b", "t2", "u", "x2", "d2", 0⟩], []⟩
    rfl
  exact h ⟨"b", "t2", "u", "x2", "d2", 0⟩ (by simp)

/-- C3 counterexample: two filtered snippets sharing a url; the context
keeps the second (last) occurrence, not the first, because the Python dict
comprehension overwrites the value of an existing key. -/
theorem C3_counterexample :
    (buildContext (fun _ => some ⟨0, some 0⟩) ⟨10, some 0⟩ []
        ⟨⟨10, some 0⟩, 1/2, none⟩
        [⟨"a", "t1", "u", "x1", "d1", 0⟩, ⟨"b", "t2", "u", "x2", "d2", 0⟩]).toOption.map
      IntervalContext.news = some [⟨"b", "t2", "u", "x2", "d2", 0⟩]
    ∧ (⟨"a", "t1", "u", "x1", "d1", 0⟩ : SearchSnippet).url
        = (⟨"b", "t2", "u", "x2", "d2", 0⟩ : SearchSnippet).url
    ∧ (⟨"a", "t1", "u", "x1", "d1", 0⟩ : SearchSnippet).id
        ≠ (⟨"b", "t2", "u", "x2", "d2", 0⟩ : SearchSnippet).id := by
  exact ⟨by decide, rfl, by decide⟩

/-- C3 amended: no two Evidence items of a built context share a source URL,
and the item kept for each URL is the last occurrence of that URL among the
filtered items, placed at the position of the URL's first occurrence. -/
theorem C3_dedupe_amended (fromiso : String → Option PyDatetime) (t : PyDatetime)
    (mi : List (String × String)) (ms : MarketState) (sr : List SearchSnippet)
    (fil : List SearchSnippet) (ctx : IntervalContext)
    (hfil : filterSnippets fromiso t sr = .ok fil)
    (h : buildContext fromiso t mi ms sr = .ok ctx) :
    (ctx.news.map (fun s => s.url)).Nodup
    ∧ ∀ x ∈ ctx.news, x ∈ fil
        ∧ (fil.filter (fun s => s.url = x.url)).getLast? = some x := by
  obtain ⟨fil2, hfil2, hnews⟩ := buildContext_ok fromiso t mi ms sr ctx h
  rw [hfil] at hfil2
  cases hfil2
  rw [hnews]
  exact dedupeByUrl_spec fil

/-- Witness for the amended C3 at the concrete build of the counterexample:
urls are distinct and the kept snippet is the last occurrence of "u" among
the filtered items. -/
theorem C3_dedupe_amended_witness :
    (([⟨"b", "t2", "u", "x2", "d2", 0⟩] : List SearchSnippet).map (fun s => s.url)).Nodup
    ∧ ([(⟨"a", "t1", "u", "x1", "d1", 0⟩ : SearchSnippet),
        ⟨"b", "t2", "u", "x2", "d2", 0⟩].filter
          (fun s => s.url = (⟨"b", "t2", "u", "x2", "d2", 0⟩ : SearchSnippet).url)).getLast?
        = some ⟨"b", "t2", "u", "x2", "d2", 0⟩ := by
  have h := C3_dedupe_amended (fun _ => some ⟨0, some 0⟩) ⟨10, some 0⟩ []
    ⟨⟨10, some 0⟩, 1/2, none⟩ [⟨"a", "t1", "u", "x1", "d1", 0⟩, ⟨"b", "t2", "u", "x2", "d2", 0⟩]
    [⟨"a", "t1", "u", "x1", "d1", 0⟩, ⟨"b", "t2", "u", "x2", "d2", 0⟩]
    ⟨⟨10, some 0⟩, [], ⟨⟨10, some 0⟩, 1/2, none⟩, [⟨"b", "t2", "u", "x2", "d2", 0⟩], []⟩
    rfl rfl
  exact ⟨h.1, (h.2 ⟨"b", "t2", "u", "x2", "d2", 0⟩ (by simp)).2⟩

/-- C2: on k recorded decisions with y YES votes, the aggregate is YES iff
y ≥ k − y (ties toward YES) and the aggregated confidence is the arithmetic
mean of the k confidences; with zero decisions the aggregate is NO at
confidence 0 and the interval is still recorded as a result. -/
theorem C2_aggregation (ds : List AgentDecision) :
    (ds ≠ [] →
      ((aggregateDecisions ds).1 = DecisionEnum.YES ↔
        ((ds.length : Int) - (yesCount ds : Int) ≤ (yesCount ds : Int)))
      ∧ (aggregateDecisions ds).2
          = (ds.map (fun d => d.confidence)).sum / (ds.length : ℚ))
    ∧ aggregateDecisions [] = (DecisionEnum.NO, 0)
    ∧ (∀ fromiso t mi ms sr r,
        processIntervalResult fromiso t mi ms sr [] = .ok r →
        r.aggregated_decision = DecisionEnum.NO ∧ r.aggregated_confidence = 0
          ∧ r.decisions = [] ∧ r.timestamp = t) := by
  refine ⟨?_, by rw [aggregateDecisions]; rfl, ?_⟩
  · intro hne
    have hempty : ds.isEmpty = false := by
      cases ds
      · exact absurd rfl hne
      · rfl
    rw [aggregateDecisions, hempty]
    simp only [Bool.false_eq_true, if_false]
    refine ⟨?_, by trivial⟩
    have hyes : yesCount ds ≤ ds.length := List.length_filter_le _ _
    by_cases hc : ds.length - yesCount ds ≤ yesCount ds
    · rw [if_pos hc]
      constructor
      · intro
        omega
      · intro
        rfl
    · rw [if_neg hc]
      constructor
      · intro hcontra
        cases hcontra
      · intro hint
        omega
  · intro fromiso t mi ms sr r h
    rw [processIntervalResult] at h
    split at h
    · cases h
    · cases h
      refine ⟨?_, ?_, rfl, rfl⟩
      · rw [aggregateDecisions]
        rfl
      · rw [aggregateDecisions]
        rfl

/-- Witness for C2 with one YES decision at confidence 3/4 and one NO at
confidence 1/4: aggregate is YES at confidence 1/2. -/
theorem C2_aggregation_witness :
    aggregateDecisions
      [⟨DecisionEnum.YES, 3/4, "r1", [], none⟩, ⟨DecisionEnum.NO, 1/4, "r2", [], none⟩]
      = (DecisionEnum.YES, 1/2) := by
  have h := (C2_aggregation
    [⟨DecisionEnum.YES, 3/4, "r1", [], none⟩, ⟨DecisionEnum.NO, 1/4, "r2", [], none⟩]).1
    (by simp)
  obtain ⟨hiff, hconf⟩ := h
  have hdec : (aggregateDecisions
      [⟨DecisionEnum.YES, 3/4, "r1", [], none⟩,
       ⟨DecisionEnum.NO, 1/4, "r2", [], none⟩]).1 = DecisionEnum.YES := by
    apply hiff.mpr
    decide
  have hcf : (aggregateDecisions
      [⟨DecisionEnum.YES, 3/4, "r1", [], none⟩,
       ⟨DecisionEnum.NO, 1/4, "r2", [], none⟩]).2 = 1/2 := by
    rw [hconf]
    norm_num [List.map, List.sum_cons, List.sum_nil]
  rw [Prod.ext_iff]
  exact ⟨hdec, hcf⟩

/-! Decision synthesizer: `TraderAgent` (backend/orchestrator/trader.py).
The inference, sandbox and explanation collaborators are abstracted as a
per-attempt environment; a raised exception is an `Except.error` carrying
the exception message. -/

/-- Parsed structured result returned by the sandbox (a JSON dict): each
field is optional as in `execution_result.get(...)`; a present but
non-numeric confidence is `some none`. -/
structure ExecOutput where
  decision : Option String
  confidence : Option (Option ℚ)
  rationale : Option String
  relevant_evidence_ids : Option (List String)
deriving DecidableEq, Repr

/-- `TraderAgent._validate_output` (trader.py lines 245-267); the model
always receives a dict, so the not-a-dictionary case does not arise. -/
def validateOutput (o : ExecOutput) : Option String :=
  match o.decision with
  | none => some "Missing decision field"
  | some dec =>
    if dec ≠ "YES" ∧ dec ≠ "NO" then
      some ("Invalid decision value: " ++ dec ++ ". Must be YES or NO")
    else
      match o.confidence with
      | none => some "Missing confidence field"
      | some none => some "Confidence must be a number"
      | some (some c) =>
        if ¬ (0 ≤ c ∧ c ≤ 1) then some "Confidence must be between 0.0 and 1.0"
        else none

/-- `DecisionEnum(execution_result.get("decision", "NO"))`, after
validation has restricted the value to YES or NO. -/
def decisionFromOutput (o : ExecOutput) : DecisionEnum :=
  if o.decision.getD "NO" = "YES" then DecisionEnum.YES else DecisionEnum.NO

/-- `float(execution_result.get("confidence", 0.5))`: a missing field
defaults to 1/2; the non-numeric case cannot be reached after validation. -/
def confidenceValue (o : ExecOutput) : ℚ :=
  match o.confidence with
  | some (some c) => c
  | some none => 0
  | none => 1/2

/-- `TraderAgent._build_rationale_with_explanation` (trader.py lines
355-376): the parts are joined with a newline; the execution note is added
only when the successful attempt was not the first. -/
def buildRationaleWithExplanation (original_rationale explanation : String)
    (successful_attempt : Nat) : String :=
  let p1 := "## Decision Rationale\n" ++ original_rationale ++ "\n"
  let p2 := "## Code Execution Analysis\n" ++ explanation ++ "\n"
  let parts := if 1 < successful_attempt then
      [p1, p2, "## Execution Notes\nThis decision required "
        ++ toString successful_attempt
        ++ " attempts. The code was refined based on previous execution errors."]
    else [p1, p2]
  String.intercalate "\n" parts

/-- Environment of one attempt of `_iterative_daytona_decision`: the code
generation or refinement call, the sandbox execution (returning `none` for
a failed run plus its trace dict, as daytona_client.execute_code does), and
the explanation call. -/
structure AttemptEnv where
  gen : Except String String
  exec : Except String (Option ExecOutput × CodeExecutionTrace)
  explain : Except String String

/-- One entry of the `execution_history` list kept by
`_iterative_daytona_decision`. -/
structure HistoryEntry where
  attempt : Nat
  code : Option String
  error : Option String
  output : Option ExecOutput
  trace : CodeExecutionTrace
deriving DecidableEq, Repr

/-- The minimal failed trace built by the `except Exception` handler
(trader.py lines 179-187); the raw_output, a printed traceback in Python,
is modelled by the exception message. -/
def failedTrace (attempt : Nat) (code : Option String) (error_msg : String) :
    CodeExecutionTrace :=
  { code := code.getD "", raw_output := error_msg, exit_code := -1,
    executed_successfully := false, execution_time_ms := none,
    error_message := some error_msg, attempt_number := attempt }

/-- The history entry appended by the `except Exception` handler
(trader.py lines 189-195). -/
def failedEntry (attempt : Nat) (code : Option String) (error_msg : String) :
    HistoryEntry :=
  ⟨attempt, code, some error_msg, none, failedTrace attempt code error_msg⟩

/-- The history entry appended when the sandbox execution returned no
result (trader.py lines 100-107): the trace dict gets the attempt number. -/
def execFailEntry (attempt : Nat) (code : String) (trace0 : CodeExecutionTrace) :
    HistoryEntry :=
  ⟨attempt, some code, some (trace0.error_message.getD "Execution failed"), none,
   { trace0 with attempt_number := attempt }⟩

/-- The history entry appended on a validation failure (trader.py lines
126-133). -/
def invalidEntry (attempt : Nat) (code : String) (verr : String)
    (output : ExecOutput) (trace0 : CodeExecutionTrace) : HistoryEntry :=
  ⟨attempt, some code, some verr, some output,
   { trace0 with attempt_number := attempt }⟩

/-- The decision object built on a successful attempt (trader.py lines
146-163): it carries the attempt's execution trace, stamped with the
attempt number. -/
def successDecision (output : ExecOutput) (explanation : String) (attempt : Nat)
    (trace0 : CodeExecutionTrace) : AgentDecision :=
  { decision := decisionFromOutput output,
    confidence := confidenceValue output,
    rationale := buildRationaleWithExplanation
      (output.rationale.getD "") explanation attempt,
    relevant_evidence_ids := output.relevant_evidence_ids.getD [],
    execution_trace := some { trace0 with attempt_number := attempt } }

/-- The `except Exception` handler of the attempt loop (trader.py lines
173-205): a minimal failed trace is recorded, and the attempt either
re-raises an all-attempts-failed error (last attempt) or retries. -/
def exceptStep (max_retries attempt : Nat) (hist : List HistoryEntry)
    (code : Option String) (error_msg : String) :
    List HistoryEntry × Option String :=
  (hist ++ [failedEntry attempt code error_msg],
   if attempt = max_retries then
     some ("All " ++ toString max_retries ++ " attempts failed. Last error: " ++ error_msg)
   else none)

/-- The attempt loop of `_iterative_daytona_decision` (trader.py lines
61-208). `fuel` counts the remaining loop iterations (`max_retries` at
entry, attempt numbering starting at 1); running out of fuel is the
`raise` after the `for` (line 208), reached when the final attempt ends in
a validation `continue`. A failed execution on the last attempt raises
inside the `try` (line 111) and is caught by the same attempt's handler,
which records a second history entry before re-raising. -/
def iterGo (env : Nat → AttemptEnv) (max_retries : Nat) :
    Nat → Nat → List HistoryEntry → Option String →
    Except String AgentDecision × List HistoryEntry
  | 0, _, hist, _ =>
    (.error "Iterative decision failed without raising exception", hist)
  | fuel + 1, attempt, hist, prevCode =>
    match (env attempt).gen with
    | .error msg =>
      match exceptStep max_retries attempt hist prevCode msg with
      | (hist1, some err) => (.error err, hist1)
      | (hist1, none) => iterGo env max_retries fuel (attempt + 1) hist1 prevCode
    | .ok code =>
      match (env attempt).exec with
      | .error msg =>
        match exceptStep max_retries attempt hist (some code) msg with
        | (hist1, some err) => (.error err, hist1)
        | (hist1, none) => iterGo env max_retries fuel (attempt + 1) hist1 (some code)
      | .ok (none, trace0) =>
        if attempt = max_retries then
          match exceptStep max_retries attempt
              (hist ++ [execFailEntry attempt code trace0]) (some code)
              ("Code execution failed: " ++ (trace0.error_message.getD "Unknown error")) with
          | (hist2, some err) => (.error err, hist2)
          | (hist2, none) => iterGo env max_retries fuel (attempt + 1) hist2 (some code)
        else
          iterGo env max_retries fuel (attempt + 1)
            (hist ++ [execFailEntry attempt code trace0]) (some code)
      | .ok (some output, trace0) =>
        match validateOutput output with
        | some verr =>
          iterGo env max_retries fuel (attempt + 1)
            (hist ++ [invalidEntry attempt code verr output trace0]) (some code)
        | none =>
          match (env attempt).explain with
          | .error msg =>
            match exceptStep max_retries attempt hist (some code) msg with
            | (hist1, some err) => (.error err, hist1)
            | (hist1, none) => iterGo env max_retries fuel (attempt + 1) hist1 (some code)
          | .ok explanation =>
            (.ok (successDecision output explanation attempt trace0), hist)

/-- `_iterative_daytona_decision`: the loop starting at attempt 1 with
empty history; the pair also exposes the final execution history for the
retention property. -/
def iterativeDaytonaDecision (env : Nat → AttemptEnv) (max_retries : Nat) :
    Except String AgentDecision × List HistoryEntry :=
  iterGo env max_retries max_retries 1 [] none

/-- Default `max_retries` of the `TraderAgent` constructor (trader.py
line 19). -/
def defaultMaxRetries : Nat := 3

/-- `_direct_llm_decision` (trader.py lines 424-473): `llmResult` is the
schema-validated decision returned by `generate_json`; in fallback mode the
rationale is prefixed with the fallback tag. -/
def directLlmDecision (llmResult : AgentDecision) (fallback : Bool) : AgentDecision :=
  if fallback then
    { llmResult with rationale := "[Fallback Mode] " ++ llmResult.rationale }
  else llmResult

/-- `TraderAgent.make_decision` (trader.py lines 24-49): direct mode skips
the sandbox; otherwise the iterative path is tried and any error falls back
to the direct path with `fallback=True`. -/
def makeDecision (mode : String) (env : Nat → AttemptEnv) (max_retries : Nat)
    (llmResult : AgentDecision) : AgentDecision :=
  if mode = "direct_llm" then directLlmDecision llmResult false
  else
    match (iterativeDaytonaDecision env max_retries).1 with
    | .ok d => d
    | .error _ => directLlmDecision llmResult true

theorem iterGo_env_agree (max_retries : Nat) (env env2 : Nat → AttemptEnv) :
    ∀ (fuel attempt : Nat) (hist : List HistoryEntry) (code : Option String),
      (∀ a, attempt ≤ a → a < attempt + fuel → env a = env2 a) →
      iterGo env max_retries fuel attempt hist code
        = iterGo env2 max_retries fuel attempt hist code := by
  intro fuel
  induction fuel with
  | zero =>
    intro attempt hist code _
    rfl
  | succ fuel ih =>
    intro attempt hist code hagree
    have he : env attempt = env2 attempt := hagree attempt le_rfl (by omega)
    have hnext : ∀ a, attempt + 1 ≤ a → a < attempt + 1 + fuel → env a = env2 a := by
      intro a h1 h2
      exact hagree a (by omega) (by omega)
    rw [iterGo, iterGo, he]
    rcases hg : (env2 attempt).gen with msg | gcode
    · simp only [hg]
      by_cases hlast : attempt = max_retries
      · simp only [exceptStep, if_pos hlast]
      · simp only [exceptStep, if_neg hlast]
        exact ih (attempt + 1) _ code hnext
    · simp only [hg]
      rcases hx : (env2 attempt).exec with msg | res
      · simp only [hx]
        by_cases hlast : attempt = max_retries
        · simp only [exceptStep, if_pos hlast]
        · simp only [exceptStep, if_neg hlast]
          exact ih (attempt + 1) _ (some gcode) hnext
      · rcases res with ⟨out, trace0⟩
        rcases out with _ | output
        · simp only [hx]
          by_cases hlast : attempt = max_retries
          · simp only [exceptStep, if_pos hlast]
          · simp only [exceptStep, if_neg hlast]
            exact ih (attempt + 1) _ (some gcode) hnext
        · simp only [hx]
          rcases hv : validateOutput output with _ | verr
          · simp only [hv]
            rcases hex : (env2 attempt).explain with msg | explanation
            · simp only [hex]
              by_cases hlast : attempt = max_retries
              · simp only [exceptStep, if_pos hlast]
              · simp only [exceptStep, if_neg hlast]
                exact ih (attempt + 1) _ (some gcode) hnext
            · simp only [hex]
          · simp only [hv]
            exact ih (attempt + 1) _ (some gcode) hnext

theorem iterGo_success (env : Nat → AttemptEnv) (max_retries : Nat) :
    ∀ (fuel attempt : Nat) (hist : List HistoryEntry) (code : Option String)
      (d : AgentDecision) (histOut : List HistoryEntry),
      iterGo env max_retries fuel attempt hist code = (.ok d, histOut) →
      ∃ a output trace0 explanation,
        attempt ≤ a ∧ a < attempt + fuel
        ∧ (env a).exec = .ok (some output, trace0)
        ∧ validateOutput output = none
        ∧ (env a).explain = .ok explanation
        ∧ d = successDecision output explanation a trace0
        ∧ (∀ e ∈ hist, e ∈ histOut)
        ∧ (∀ j, attempt ≤ j → j < a →
            ∃ e ∈ histOut, e.attempt = j ∧ e.trace.attempt_number = j) := by
  intro fuel
  induction fuel with
  | zero =>
    intro attempt hist code d histOut h
    rw [iterGo] at h
    cases h
  | succ fuel ih =>
    intro attempt hist code d histOut h
    rw [iterGo] at h
    rcases hg : (env attempt).gen with msg | gcode
    · simp only [hg] at h
      by_cases hlast : attempt = max_retries
      · simp only [exceptStep, if_pos hlast] at h
        exact Except.noConfusion (congrArg Prod.fst h)
      · simp only [exceptStep, if_neg hlast] at h
        obtain ⟨a, output, trace0, explanation, ha1, ha2, hx, hv, hexp, htr, hpre, hrange⟩ :=
          ih (attempt + 1) _ code d histOut h
        refine ⟨a, output, trace0, explanation, by omega, by omega, hx, hv, hexp, htr, ?_, ?_⟩
        · intro e he
          exact hpre e (List.mem_append_left _ he)
        · intro j hj1 hj2
          by_cases hja : j = attempt
          · subst hja
            exact ⟨failedEntry j code msg,
              hpre _ (List.mem_append_right _ (by simp)), rfl, rfl⟩
          · exact hrange j (by omega) hj2
    · simp only [hg] at h
      rcases hx : (env attempt).exec with msg | res
      · simp only [hx] at h
        by_cases hlast : attempt = max_retries
        · simp only [exceptStep, if_pos hlast] at h
          exact Except.noConfusion (congrArg Prod.fst h)
        · simp only [exceptStep, if_neg hlast] at h
          obtain ⟨a, output, trace0, explanation, ha1, ha2, hxa, hv, hexp, htr, hpre, hrange⟩ :=
            ih (attempt + 1) _ (some gcode) d histOut h
          refine ⟨a, output, trace0, explanation, by omega, by omega,
            hxa, hv, hexp, htr, ?_, ?_⟩
          · intro e he
            exact hpre e (List.mem_append_left _ he)
          · intro j hj1 hj2
            by_cases hja : j = attempt
            · subst hja
              exact ⟨failedEntry j (some gcode) msg,
                hpre _ (List.mem_append_right _ (by simp)), rfl, rfl⟩
            · exact hrange j (by omega) hj2
      · rcases res with ⟨out, trace0⟩
        rcases out with _ | output
        · simp only [hx] at h
          by_cases hlast : attempt = max_retries
          · simp only [exceptStep, if_pos hlast] at h
            exact Except.noConfusion (congrArg Prod.fst h)
          · simp only [if_neg hlast] at h
            obtain ⟨a, output, trace1, explanation, ha1, ha2, hxa, hv, hexp, htr,
              hpre, hrange⟩ := ih (attempt + 1) _ (some gcode) d histOut h
            refine ⟨a, output, trace1, explanation, by omega, by omega,
              hxa, hv, hexp, htr, ?_, ?_⟩
            · intro e he
              exact hpre e (List.mem_append_left _ he)
            · intro j hj1 hj2
              by_cases hja : j = attempt
              · subst hja
                exact ⟨execFailEntry j gcode trace0,
                  hpre _ (List.mem_append_right _ (by simp)), rfl, rfl⟩
              · exact hrange j (by omega) hj2
        · simp only [hx] at h
          rcases hv : validateOutput output with _ | verr
          · simp only [hv] at h
            rcases hex : (env attempt).explain with msg | explanation
            · simp only [hex] at h
              by_cases hlast : attempt = max_retries
              · simp only [exceptStep, if_pos hlast] at h
                exact Except.noConfusion (congrArg Prod.fst h)
              · simp only [exceptStep, if_neg hlast] at h
                obtain ⟨a, output2, trace1, explanation2, ha1, ha2, hxa, hv2, hexp, htr,
                  hpre, hrange⟩ := ih (attempt + 1) _ (some gcode) d histOut h
                refine ⟨a, output2, trace1, explanation2, by omega, by omega,
                  hxa, hv2, hexp, htr, ?_, ?_⟩
                · intro e he
                  exact hpre e (List.mem_append_left _ he)
                · intro j hj1 hj2
                  by_cases hja : j = attempt
                  · subst hja
                    exact ⟨failedEntry j (some gcode) msg,
                      hpre _ (List.mem_append_right _ (by simp)), rfl, rfl⟩
                  · exact hrange j (by omega) hj2
            · simp only [hex] at h
              obtain rfl : successDecision output explanation attempt trace0 = d :=
                Except.ok.inj (congrArg Prod.fst h)
              obtain rfl : hist = histOut := congrArg Prod.snd h
              refine ⟨attempt, output, trace0, explanation, le_rfl, by omega,
                hx, hv, hex, rfl, fun e he => he, ?_⟩
              intro j hj1 hj2
              omega
          · simp only [hv] at h
            obtain ⟨a, output2, trace1, explanation, ha1, ha2, hxa, hv2, hexp, htr,
              hpre, hrange⟩ := ih (attempt + 1) _ (some gcode) d histOut h
            refine ⟨a, output2, trace1, explanation, by omega, by omega,
              hxa, hv2, hexp, htr, ?_, ?_⟩
            · intro e he
              exact hpre e (List.mem_append_left _ he)
            · intro j hj1 hj2
              by_cases hja : j = attempt
              · subst hja
                exact ⟨invalidEntry j gcode verr output trace0,
                  hpre _ (List.mem_append_right _ (by simp)), rfl, rfl⟩
              · exact hrange j (by omega) hj2

/-- C4: the iterative synthesis path consults the per-attempt environment
only for attempts 1..max_retries (at most maxAttempts
Generate/Execute/Validate cycles, default 3), and when the iterative path
fails the caller falls back to a single direct inference call whose
Decision is distinguishably tagged with the fallback prefix in its
rationale. -/
theorem C4_retry_bound_and_fallback :
    (∀ (env env2 : Nat → AttemptEnv) (max_retries : Nat),
      (∀ a, 1 ≤ a → a ≤ max_retries → env a = env2 a) →
      iterativeDaytonaDecision env max_retries
        = iterativeDaytonaDecision env2 max_retries)
    ∧ (∀ (env : Nat → AttemptEnv) (max_retries : Nat)
        (llmResult : AgentDecision) (msg : String),
        (iterativeDaytonaDecision env max_retries).1 = .error msg →
        makeDecision "daytona_agent" env max_retries llmResult
          = directLlmDecision llmResult true
        ∧ ∃ rest, (makeDecision "daytona_agent" env max_retries llmResult).rationale
            = "[Fallback Mode] " ++ rest)
    ∧ defaultMaxRetries = 3 := by
  refine ⟨?_, ?_, rfl⟩
  · intro env env2 mr hagree
    unfold iterativeDaytonaDecision
    exact iterGo_env_agree mr env env2 mr 1 [] none
      (fun a h1 h2 => hagree a h1 (by omega))
  · intro env mr llm msg herr
    have hmk : makeDecision "daytona_agent" env mr llm = directLlmDecision llm true := by
      rw [makeDecision, if_neg (by decide)]
      simp only [herr]
    refine ⟨hmk, llm.rationale, ?_⟩
    rw [hmk]
    rfl

/-- Environment in which every attempt's generation call raises. -/
def envAllFail : Nat → AttemptEnv :=
  fun _ => ⟨.error "boom", .error "boom", .error "boom"⟩

/-- Witness for C4: with all three attempts failing, make_decision returns
the direct fallback decision, tagged in its rationale. -/
theorem C4_retry_bound_and_fallback_witness :
    makeDecision "daytona_agent" envAllFail defaultMaxRetries
        ⟨DecisionEnum.NO, 1/2, "base", [], none⟩
      = directLlmDecision ⟨DecisionEnum.NO, 1/2, "base", [], none⟩ true
    ∧ ∃ rest, (makeDecision "daytona_agent" envAllFail defaultMaxRetries
        ⟨DecisionEnum.NO, 1/2, "base", [], none⟩).rationale
        = "[Fallback Mode] " ++ rest :=
  C4_retry_bound_and_fallback.2.1 envAllFail defaultMaxRetries
    ⟨DecisionEnum.NO, 1/2, "base", [], none⟩
    "All 3 attempts failed. Last error: boom" rfl

/-- C7: a Decision produced by a successful iterative attempt carries that
attempt's ExecutionTrace (stamped with the attempt index) in its optional
execution_trace field, and every earlier failed attempt left a history
entry retaining its own trace even though a later attempt's result was
kept. -/
theorem C7_execution_trace_retention (env : Nat → AttemptEnv) (max_retries : Nat)
    (d : AgentDecision) (histOut : List HistoryEntry)
    (h : iterativeDaytonaDecision env max_retries = (.ok d, histOut)) :
    ∃ a output trace0 explanation,
      1 ≤ a ∧ a ≤ max_retries
      ∧ (env a).exec = .ok (some output, trace0)
      ∧ d.execution_trace = some { trace0 with attempt_number := a }
      ∧ d = successDecision output explanation a trace0
      ∧ ∀ j, 1 ≤ j → j < a →
          ∃ e ∈ histOut, e.attempt = j ∧ e.trace.attempt_number = j := by
  obtain ⟨a, output, trace0, explanation, ha1, ha2, hx, hv, hexp, hd, hpre, hrange⟩ :=
    iterGo_success env max_retries max_retries 1 [] none d histOut h
  refine ⟨a, output, trace0, explanation, ha1, by omega, hx, ?_, hd, hrange⟩
  rw [hd]
  rfl

/-- Trace of the failed first sandbox run of the C7 witness environment. -/
def trFailEx : CodeExecutionTrace :=
  ⟨"c1", "boom output", 1, false, some 12, some "exec boom", 0⟩

/-- Trace of the successful second sandbox run of the C7 witness
environment. -/
def trOkEx : CodeExecutionTrace :=
  ⟨"c2", "ok output", 0, true, some 34, none, 0⟩

/-- Valid structured output of the successful second attempt. -/
def outOkEx : ExecOutput :=
  ⟨some "YES", some (some (mkRat 3 4)), some "r", some []⟩

/-- Environment whose first attempt fails in the sandbox and whose second
attempt succeeds. -/
def envRetry : Nat → AttemptEnv :=
  fun a =>
    if a = 1 then ⟨.ok "c1", .ok (none, trFailEx), .ok "e1"⟩
    else ⟨.ok "c2", .ok (some outOkEx, trOkEx), .ok "expl"⟩

/-- Witness for C7: the decision kept after a failed first attempt carries
the second attempt's trace, and the first attempt's trace is retained in
the history. -/
theorem C7_execution_trace_retention_witness :
    ∃ a output trace0 explanation,
      1 ≤ a ∧ a ≤ defaultMaxRetries
      ∧ (envRetry a).exec = .ok (some output, trace0)
      ∧ (successDecision outOkEx "expl" 2 trOkEx).execution_trace
          = some { trace0 with attempt_number := a }
      ∧ successDecision outOkEx "expl" 2 trOkEx
          = successDecision output explanation a trace0
      ∧ ∀ j, 1 ≤ j → j < a →
          ∃ e ∈ [execFailEntry 1 "c1" trFailEx],
            e.attempt = j ∧ e.trace.attempt_number = j :=
  C7_execution_trace_retention envRetry defaultMaxRetries
    (successDecision outOkEx "expl" 2 trOkEx) [execFailEntry 1 "c1" trFailEx] rfl

/-! Experiment runner tail and progress tracking (backend/orchestrator/
core.py lines 151-196, backend/orchestrator/progress.py) and configuration
validation (backend/models.py). -/

/-- ExperimentConfig from backend/models.py; the mode enum value is kept as
its string value. -/
structure ExperimentConfig where
  market_slug : String
  start_time : PyDatetime
  end_time : PyDatetime
  interval_minutes : Int
  num_simulations : Int
  model_provider : String
  mode : String
deriving DecidableEq, Repr

/-- Pydantic validation of ExperimentConfig construction: the Field
constraints are `interval_minutes > 0` (gt=0) and `num_simulations >= 1`
(ge=1), plus membership of mode in the ExperimentMode enum. No constraint
relates start_time and end_time. -/
def mkExperimentConfig (market_slug : String) (start_time end_time : PyDatetime)
    (interval_minutes num_simulations : Int) (model_provider mode : String) :
    Except String ExperimentConfig :=
  if interval_minutes ≤ 0 then
    .error "interval_minutes: Input should be greater than 0"
  else if num_simulations < 1 then
    .error "num_simulations: Input should be greater than or equal to 1"
  else if mode ≠ "daytona_agent" ∧ mode ≠ "direct_llm" then
    .error "mode: Input should be daytona_agent or direct_llm"
  else
    .ok ⟨market_slug, start_time, end_time, interval_minutes, num_simulations,
      model_provider, mode⟩

/-- ExperimentProgress state (progress.py lines 9-28): status is one of
running, completed, failed. -/
structure ProgressState where
  total_intervals : Nat
  completed_intervals : Nat
  failed_intervals : Nat
  status : String
  error : Option String
deriving DecidableEq, Repr

/-- `ExperimentProgress.__init__` via `ProgressTracker.create`. -/
def progressCreate (total : Nat) : ProgressState :=
  ⟨total, 0, 0, "running", none⟩

/-- `ExperimentProgress.update` (progress.py lines 20-23). -/
def progressUpdate (p : ProgressState) (completed failed : Nat) : ProgressState :=
  { p with completed_intervals := completed, failed_intervals := failed }

/-- `ExperimentProgress.finish` (progress.py lines 25-28). -/
def progressFinish (p : ProgressState) (success : Bool) (error : Option String) :
    ProgressState :=
  { p with status := if success then "completed" else "failed", error := error }

/-- Stable insertion of an IntervalResult into a timestamp-sorted list,
placing equal timestamps after existing ones. -/
def insertByTs (r : IntervalResult) : List IntervalResult → List IntervalResult
  | [] => [r]
  | x :: xs =>
    if x.timestamp.toUTC < r.timestamp.toUTC then x :: insertByTs r xs
    else r :: x :: xs

/-- `valid_results.sort(key=lambda r: r.timestamp)` (core.py line 171):
Python's stable sort, modelled as stable insertion sort. -/
def sortByTimestamp : List IntervalResult → List IntervalResult
  | [] => []
  | r :: rest => insertByTs r (sortByTimestamp rest)

/-- Tail of `run_experiment` after `asyncio.gather` (core.py lines
151-196): each interval task ended in a result or an exception; exceptions
are filtered out, the survivors sorted by timestamp; with zero survivors
the tracker is finished with "All intervals failed", then the raised
ValueError is caught by the outer handler which finishes the tracker again
with the exception text, and nothing is saved; otherwise the experiment is
appended to the store and the tracker finished successfully. -/
def finishExperiment (experiment_id : String) (config : ExperimentConfig)
    (results : List (Except String IntervalResult))
    (store : List (String × ExperimentConfig × List IntervalResult))
    (prog : ProgressState) :
    Except String String
      × List (String × ExperimentConfig × List IntervalResult) × ProgressState :=
  let valid_results := results.filterMap Except.toOption
  let sorted := sortByTimestamp valid_results
  if valid_results.isEmpty then
    let prog1 := progressFinish prog false (some "All intervals failed")
    let msg := "All " ++ toString results.length ++ " intervals failed. Cannot save experiment."
    let prog2 := progressFinish prog1 false (some msg)
    (.error msg, store, prog2)
  else
    let prog1 := progressFinish prog true none
    (.ok experiment_id, store ++ [(experiment_id, config, sorted)], prog1)

/-- C6: when every interval task failed, nothing is persisted to the
store, the run fails with an all-intervals-failed error, and the progress
entry is marked failed with a descriptive error (the tracker is finished
twice: once before the raise, once by the outer handler with the raised
message). -/
theorem C6_total_failure_gate (experiment_id : String) (config : ExperimentConfig)
    (results : List (Except String IntervalResult))
    (store : List (String × ExperimentConfig × List IntervalResult))
    (prog : ProgressState)
    (hall : ∀ r ∈ results, ∃ msg, r = .error msg) :
    ∃ msg, finishExperiment experiment_id config results store prog
        = (.error msg, store,
           progressFinish (progressFinish prog false (some "All intervals failed"))
             false (some msg))
      ∧ msg = "All " ++ toString results.length ++ " intervals failed. Cannot save experiment."
      ∧ (progressFinish (progressFinish prog false (some "All intervals failed"))
           false (some msg)).status = "failed"
      ∧ (progressFinish (progressFinish prog false (some "All intervals failed"))
           false (some msg)).error = some msg := by
  have hnil : results.filterMap Except.toOption = [] := by
    rw [List.filterMap_eq_nil_iff]
    intro r hr
    obtain ⟨msg, rfl⟩ := hall r hr
    rfl
  refine ⟨_, ?_, rfl, rfl, rfl⟩
  rw [finishExperiment]
  simp only [hnil]
  rfl

/-- Witness for C6: two failed interval tasks produce no stored experiment
and a failed progress entry. -/
theorem C6_total_failure_gate_witness :
    ∃ msg, finishExperiment "id1" ⟨"m", ⟨0, none⟩, ⟨1, none⟩, 5, 1, "p", "daytona_agent"⟩
        [.error "a", .error "b"] [] (progressCreate 2)
        = (.error msg, [],
           progressFinish (progressFinish (progressCreate 2) false (some "All intervals failed"))
             false (some msg))
      ∧ msg = "All " ++ toString ([(.error "a" : Except String IntervalResult),
          .error "b"].length) ++ " intervals failed. Cannot save experiment."
      ∧ (progressFinish (progressFinish (progressCreate 2) false (some "All intervals failed"))
           false (some msg)).status = "failed"
      ∧ (progressFinish (progressFinish (progressCreate 2) false (some "All intervals failed"))
           false (some msg)).error = some msg :=
  C6_total_failure_gate "id1" ⟨"m", ⟨0, none⟩, ⟨1, none⟩, 5, 1, "p", "daytona_agent"⟩
    [.error "a", .error "b"] [] (progressCreate 2)
    (by intro r hr
        simp only [List.mem_cons, List.not_mem_nil, or_false] at hr
        rcases hr with rfl | rfl
        · exact ⟨"a", rfl⟩
        · exact ⟨"b", rfl⟩)

/-- C8 counterexample: an ExperimentConfig with start_time after end_time
is constructed successfully, contradicting "every successfully constructed
ExperimentConfig satisfies start ≤ end". -/
theorem C8_counterexample :
    mkExperimentConfig "m" ⟨10, some 0⟩ ⟨0, some 0⟩ 5 1 "p" "daytona_agent"
      = .ok ⟨"m", ⟨10, some 0⟩, ⟨0, some 0⟩, 5, 1, "p", "daytona_agent"⟩
    ∧ ¬ ((⟨10, some 0⟩ : PyDatetime).toUTC ≤ (⟨0, some 0⟩ : PyDatetime).toUTC) := by
  exact ⟨rfl, by decide⟩

/-- C8 amended: construction enforces interval length > 0 (and trial count
≥ 1), rejecting violations, but start ≤ end is not checked at
construction; a window with start > end is instead rejected inside
run_experiment by the grid generator with a configuration error (after the
market-metadata fetch, before any interval work). -/
theorem C8_config_validation_amended (market_slug : String)
    (s e : PyDatetime) (m n : Int) (mp md : String) :
    (∀ cfg, mkExperimentConfig market_slug s e m n mp md = .ok cfg →
      0 < cfg.interval_minutes ∧ 1 ≤ cfg.num_simulations
        ∧ cfg.start_time = s ∧ cfg.end_time = e)
    ∧ (m ≤ 0 → ∃ msg, mkExperimentConfig market_slug s e m n mp md = .error msg)
    ∧ (0 < m → (normalizeUTC e).toUTC < (normalizeUTC s).toUTC →
        generate_intervals s e m = .error "start_time must be before or equal to end_time") := by
  refine ⟨?_, ?_, ?_⟩
  · intro cfg hcfg
    rw [mkExperimentConfig] at hcfg
    split_ifs at hcfg with h1 h2 h3
    all_goals cases hcfg
    exact ⟨show (0 : Int) < m by omega, show (1 : Int) ≤ n by omega, rfl, rfl⟩
  · intro hm
    rw [mkExperimentConfig, if_pos hm]
    exact ⟨_, rfl⟩
  · intro hm hlt
    rw [generate_intervals, dif_neg (by omega), if_pos (by omega)]

/-- Witness for the amended C8 at a concrete valid construction and a
concrete inverted window. -/
theorem C8_config_validation_amended_witness :
    (0 : Int) < 5 ∧ (1 : Int) ≤ 1
    ∧ (⟨"m", ⟨10, some 0⟩, ⟨0, some 0⟩, 5, 1, "p", "daytona_agent"⟩
        : ExperimentConfig).start_time = ⟨10, some 0⟩
    ∧ generate_intervals ⟨10, some 0⟩ ⟨0, some 0⟩ 5
      = .error "start_time must be before or equal to end_time" := by
  have h := C8_config_validation_amended "m" ⟨10, some 0⟩ ⟨0, some 0⟩ 5 1 "p" "daytona_agent"
  obtain ⟨hc, -, hg⟩ := h
  obtain ⟨h1, h2, h3, -⟩ := hc
    ⟨"m", ⟨10, some 0⟩, ⟨0, some 0⟩, 5, 1, "p", "daytona_agent"⟩ rfl
  exact ⟨h1, h2, h3, hg (by norm_num) (by decide)⟩

/-! Rate limiter (backend/utils/rate_limit.py): `RateLimiter` wraps an
`asyncio.Semaphore(max_concurrent)` plus an optional per-minute token
bucket guarded by an `asyncio.Lock` (held across the bucket's sleep, so the
bucket section of one caller is atomic with respect to the others). Each
caller uses the scoped `async with` form around its API call, so `release`
runs on every exit path. The cooperative scheduler is modelled as a
labelled transition system over integer time; `asyncio.sleep` resumes
strictly after its deadline (one tick or more). The burst-delay section
after the bucket only sleeps and stamps `last_request_time`. -/

/-- Phase of one caller inside `async with limiter: call()`. -/
inductive CallerPhase where
  | idle
  | semWait
  | bucketWait
  | delayWait
  | inflight
  | done
deriving DecidableEq, Repr

/-- Configuration of one RateLimiter (rate_limit.py lines 16-31):
`max_concurrent` seeds the semaphore, `requests_per_minute` the optional
token bucket. -/
structure RLConfig where
  max_concurrent : Nat
  requests_per_minute : Option Nat
deriving DecidableEq, Repr

/-- Python truthiness of `self.requests_per_minute` (line 38): `None` and
0 both skip the bucket. -/
def rpmVal (cfg : RLConfig) : Option Nat :=
  match cfg.requests_per_minute with
  | some (n + 1) => some (n + 1)
  | _ => none

/-- State of one limiter with its callers: the semaphore counter, each
caller's phase, the admission-time deque (oldest first), the burst-delay
stamp, and the clock (seconds). -/
structure RLState where
  value : Nat
  phases : List CallerPhase
  request_times : List Int
  last_request_time : Option Int
  now : Int
deriving DecidableEq, Repr

/-- The `while self.request_times and current_time - self.request_times[0]
> 60: popleft()` pruning loop (lines 42-43): entries strictly older than 60
are dropped from the front. -/
def pruneWindow (now : Int) (ts : List Int) : List Int :=
  ts.dropWhile (fun t => decide (60 < now - t))

/-- Initial state for M callers: the semaphore holds `max_concurrent`
permits, everyone idle, empty window. -/
def rlInit (cfg : RLConfig) (M : Nat) : RLState :=
  ⟨cfg.max_concurrent, List.replicate M CallerPhase.idle, [], none, 0⟩

/-- Transition labels: caller i enters acquire, is granted the semaphore,
passes the token bucket, finishes the burst delay, or releases; `tick`
advances the clock. -/
inductive RLAction where
  | start (i : Nat)
  | semAcq (i : Nat)
  | bucket (i : Nat)
  | delayDone (i : Nat)
  | release (i : Nat)
  | tick (d : Int)
deriving DecidableEq, Repr

/-- One scheduler step. The bucket step is atomic because the
`asyncio.Lock` is held for the whole bucket section including its sleep;
its three cases are: no (falsy) per-minute limit; pruned window below the
limit (admit and record, lines 46 and 56); window at the limit with
`wait_time = 60 - (now - oldest)`: a positive wait sleeps to strictly past
`oldest + 60` and re-prunes before recording (lines 47-56), while a
non-positive wait skips the sleep and records immediately — without
re-checking the count. -/
inductive RLStep (cfg : RLConfig) : RLState → RLAction → RLState → Prop where
  | start (s : RLState) (i : Nat)
      (h : s.phases[i]? = some CallerPhase.idle) :
      RLStep cfg s (.start i) { s with phases := s.phases.set i CallerPhase.semWait }
  | semAcq (s : RLState) (i : Nat)
      (h : s.phases[i]? = some CallerPhase.semWait) (hv : 0 < s.value) :
      RLStep cfg s (.semAcq i)
        { s with value := s.value - 1, phases := s.phases.set i CallerPhase.bucketWait }
  | bucketNoLimit (s : RLState) (i : Nat)
      (h : s.phases[i]? = some CallerPhase.bucketWait)
      (hrpm : rpmVal cfg = none) :
      RLStep cfg s (.bucket i) { s with phases := s.phases.set i CallerPhase.delayWait }
  | bucketBelow (s : RLState) (i : Nat) (rpm : Nat)
      (h : s.phases[i]? = some CallerPhase.bucketWait)
      (hrpm : rpmVal cfg = some rpm)
      (hlt : (pruneWindow s.now s.request_times).length < rpm) :
      RLStep cfg s (.bucket i)
        { s with phases := s.phases.set i CallerPhase.delayWait,
                 request_times := pruneWindow s.now s.request_times ++ [s.now] }
  | bucketBoundary (s : RLState) (i : Nat) (rpm : Nat) (t0 : Int) (rest : List Int)
      (h : s.phases[i]? = some CallerPhase.bucketWait)
      (hrpm : rpmVal cfg = some rpm)
      (hts : pruneWindow s.now s.request_times = t0 :: rest)
      (hge : rpm ≤ (t0 :: rest).length)
      (hwait : 60 - (s.now - t0) ≤ 0) :
      RLStep cfg s (.bucket i)
        { s with phases := s.phases.set i CallerPhase.delayWait,
                 request_times := (t0 :: rest) ++ [s.now] }
  | bucketSleep (s : RLState) (i : Nat) (rpm : Nat) (t0 : Int) (rest : List Int) (δ : Int)
      (h : s.phases[i]? = some CallerPhase.bucketWait)
      (hrpm : rpmVal cfg = some rpm)
      (hts : pruneWindow s.now s.request_times = t0 :: rest)
      (hge : rpm ≤ (t0 :: rest).length)
      (hwait : 0 < 60 - (s.now - t0))
      (hδ : 1 ≤ δ) :
      RLStep cfg s (.bucket i)
        { s with phases := s.phases.set i CallerPhase.delayWait,
                 now := t0 + 60 + δ,
                 request_times := pruneWindow (t0 + 60 + δ) (t0 :: rest) ++ [t0 + 60 + δ] }
  | delayDone (s : RLState) (i : Nat)
      (h : s.phases[i]? = some CallerPhase.delayWait) :
      RLStep cfg s (.delayDone i)
        { s with phases := s.phases.set i CallerPhase.inflight,
                 last_request_time := some s.now }
  | release (s : RLState) (i : Nat)
      (h : s.phases[i]? = some CallerPhase.inflight) :
      RLStep cfg s (.release i)
        { s with value := s.value + 1, phases := s.phases.set i CallerPhase.done }
  | tick (s : RLState) (d : Int) (hd : 0 < d) :
      RLStep cfg s (.tick d) { s with now := s.now + d }

/-- States reachable from the initial state of M callers. -/
inductive RLReachable (cfg : RLConfig) (M : Nat) : RLState → Prop where
  | init : RLReachable cfg M (rlInit cfg M)
  | step (s : RLState) (a : RLAction) (s2 : RLState)
      (hs : RLReachable cfg M s) (h : RLStep cfg s a s2) : RLReachable cfg M s2

/-- True for phases that hold a semaphore permit (between a successful
semaphore acquire and the scoped release). -/
def holdsPermit : CallerPhase → Bool
  | CallerPhase.bucketWait => true
  | CallerPhase.delayWait => true
  | CallerPhase.inflight => true
  | _ => false

/-- True for callers whose API call is in flight. -/
def isInflight : CallerPhase → Bool
  | CallerPhase.inflight => true
  | _ => false

/-- Number of callers currently holding a permit. -/
def permitCount (s : RLState) : Nat :=
  s.phases.countP holdsPermit

/-- Number of callers whose call is currently in flight. -/
def inflightCount (s : RLState) : Nat :=
  s.phases.countP isInflight

theorem countP_set_add {α : Type} (p : α → Bool) (l : List α) :
    ∀ (i : Nat) (a v : α), l[i]? = some a →
      (l.set i v).countP p + (if p a then 1 else 0)
        = l.countP p + (if p v then 1 else 0) := by
  induction l with
  | nil =>
    intro i a v h
    cases h
  | cons x xs ih =>
    intro i a v h
    cases i with
    | zero =>
      rw [List.getElem?_cons_zero] at h
      cases h
      simp only [List.set_cons_zero, List.countP_cons]
      cases hpx : p x <;> cases hpv : p v <;> simp
    | succ i =>
      rw [List.getElem?_cons_succ] at h
      have := ih i a v h
      simp only [List.set_cons_succ, List.countP_cons]
      cases hpx : p x <;> simp <;> omega

/-- Semaphore invariant: held permits plus the semaphore counter equal the
configured concurrency bound. -/
def SemInv (cfg : RLConfig) (s : RLState) : Prop :=
  s.value + permitCount s = cfg.max_concurrent

theorem rlStep_semInv (cfg : RLConfig) (s : RLState) (a : RLAction) (s2 : RLState)
    (h : RLStep cfg s a s2) (hinv : SemInv cfg s) : SemInv cfg s2 := by
  cases h with
  | start i hp =>
    have hc := countP_set_add holdsPermit s.phases i _ CallerPhase.semWait hp
    unfold SemInv permitCount at hinv ⊢
    simp [holdsPermit] at hc
    simp only at hc ⊢
    omega
  | semAcq i hp hv =>
    have hc := countP_set_add holdsPermit s.phases i _ CallerPhase.bucketWait hp
    unfold SemInv permitCount at hinv ⊢
    simp [holdsPermit] at hc
    simp only at hc ⊢
    omega
  | bucketNoLimit i hp hrpm =>
    have hc := countP_set_add holdsPermit s.phases i _ CallerPhase.delayWait hp
    unfold SemInv permitCount at hinv ⊢
    simp [holdsPermit] at hc
    simp only at hc ⊢
    omega
  | bucketBelow i rpm hp hrpm hlt =>
    have hc := countP_set_add holdsPermit s.phases i _ CallerPhase.delayWait hp
    unfold SemInv permitCount at hinv ⊢
    simp [holdsPermit] at hc
    simp only at hc ⊢
    omega
  | bucketBoundary i rpm t0 rest hp hrpm hts hge hwait =>
    have hc := countP_set_add holdsPermit s.phases i _ CallerPhase.delayWait hp
    unfold SemInv permitCount at hinv ⊢
    simp [holdsPermit] at hc
    simp only at hc ⊢
    omega
  | bucketSleep i rpm t0 rest δ hp hrpm hts hge hwait hδ =>
    have hc := countP_set_add holdsPermit s.phases i _ CallerPhase.delayWait hp
    unfold SemInv permitCount at hinv ⊢
    simp [holdsPermit] at hc
    simp only at hc ⊢
    omega
  | delayDone i hp =>
    have hc := countP_set_add holdsPermit s.phases i _ CallerPhase.inflight hp
    unfold SemInv permitCount at hinv ⊢
    simp [holdsPermit] at hc
    simp only at hc ⊢
    omega
  | release i hp =>
    have hc := countP_set_add holdsPermit s.phases i _ CallerPhase.done hp
    unfold SemInv permitCount at hinv ⊢
    simp [holdsPermit] at hc
    simp only at hc ⊢
    omega
  | tick d hd =>
    unfold SemInv permitCount at hinv ⊢
    simpa using hinv

theorem rlReachable_semInv (cfg : RLConfig) (M : Nat) (s : RLState)
    (h : RLReachable cfg M s) : SemInv cfg s := by
  induction h with
  | init =>
    unfold SemInv permitCount rlInit
    have : (List.replicate M CallerPhase.idle).countP holdsPermit = 0 := by
      rw [List.countP_eq_zero]
      intro a ha
      rw [List.eq_of_mem_replicate ha]
      decide
    simp only at this ⊢
    omega
  | step s a s2 hs hstep ih =>
    exact rlStep_semInv cfg s a s2 hstep ih

/-- C9 amended: in every reachable state at most `max_concurrent` calls
are in flight; the semaphore grants an acquire only while fewer than
`max_concurrent` permits are held; and a bucket admission happens only
when the pruned trailing-window count is below the per-window limit, or
once the clock has passed the expiry of the window's oldest entry (the
sleep path, and the exact-boundary path that admits at the limit without
re-checking the count). -/
theorem C9_rate_limiter_amended (cfg : RLConfig) (M : Nat) :
    (∀ s, RLReachable cfg M s → inflightCount s ≤ cfg.max_concurrent)
    ∧ (∀ s i s2, RLReachable cfg M s → RLStep cfg s (.semAcq i) s2 →
        permitCount s < cfg.max_concurrent)
    ∧ (∀ s i s2 rpm, rpmVal cfg = some rpm → RLStep cfg s (.bucket i) s2 →
        (pruneWindow s.now s.request_times).length < rpm
        ∨ ∃ t0 rest, pruneWindow s.now s.request_times = t0 :: rest
            ∧ t0 + 60 ≤ s2.now) := by
  refine ⟨?_, ?_, ?_⟩
  · intro s hs
    have hinv := rlReachable_semInv cfg M s hs
    have hmono : inflightCount s ≤ permitCount s := by
      unfold inflightCount permitCount
      apply List.countP_mono_left
      intro x _ hx
      cases x <;> first | rfl | exact absurd hx (by simp [isInflight])
    unfold SemInv at hinv
    omega
  · intro s i s2 hs hstep
    have hinv := rlReachable_semInv cfg M s hs
    unfold SemInv at hinv
    cases hstep with
    | semAcq i hp hv => omega
  · intro s i s2 rpm hrpm hstep
    cases hstep with
    | bucketNoLimit i2 hp hrpm2 =>
      rw [hrpm] at hrpm2
      cases hrpm2
    | bucketBelow i2 rpm2 hp hrpm2 hlt =>
      rw [hrpm] at hrpm2
      cases hrpm2
      exact Or.inl hlt
    | bucketBoundary i2 rpm2 t0 rest hp hrpm2 hts hge hwait =>
      refine Or.inr ⟨t0, rest, hts, ?_⟩
      simp only
      omega
    | bucketSleep i2 rpm2 t0 rest δ hp hrpm2 hts hge hwait hδ =>
      refine Or.inr ⟨t0, rest, hts, ?_⟩
      simp only
      omega

/-- Witness for the amended C9 at the initial state of a pool with
max_concurrent 2 and per-minute limit 1 for two callers. -/
theorem C9_rate_limiter_amended_witness :
    inflightCount (rlInit ⟨2, some 1⟩ 2) ≤ (⟨2, some 1⟩ : RLConfig).max_concurrent :=
  (C9_rate_limiter_amended ⟨2, some 1⟩ 2).1 (rlInit ⟨2, some 1⟩ 2) RLReachable.init

/-- Formal reading of the window clause of C9 as stated: every bucket
admission of every reachable state happens only while the pruned
trailing-window count is strictly below the per-window limit. -/
def WindowAdmissionRespected : Prop :=
  ∀ (cfg : RLConfig) (M : Nat) (s : RLState) (i : Nat) (s2 : RLState) (rpm : Nat),
    rpmVal cfg = some rpm →
    RLReachable cfg M s →
    RLStep cfg s (.bucket i) s2 →
    (pruneWindow s.now s.request_times).length < rpm

/-- Intermediate states of the C9 counterexample trace (pool with
max_concurrent 2, 1 request per minute, two callers). -/
def rlS1 : RLState := ⟨2, [CallerPhase.semWait, CallerPhase.idle], [], none, 0⟩

def rlS2 : RLState := ⟨1, [CallerPhase.bucketWait, CallerPhase.idle], [], none, 0⟩

def rlS3 : RLState := ⟨1, [CallerPhase.delayWait, CallerPhase.idle], [0], none, 0⟩

def rlS4 : RLState := ⟨1, [CallerPhase.delayWait, CallerPhase.idle], [0], none, 60⟩

def rlS5 : RLState := ⟨1, [CallerPhase.delayWait, CallerPhase.semWait], [0], none, 60⟩

def rlS6 : RLState := ⟨0, [CallerPhase.delayWait, CallerPhase.bucketWait], [0], none, 60⟩

def rlS7 : RLState := ⟨0, [CallerPhase.delayWait, CallerPhase.delayWait], [0, 60], none, 60⟩

/-- C9 counterexample: caller 0 is admitted at time 0; at time 60 the
entry is exactly one window old, so it is still counted (pruning drops
only entries strictly older than 60) yet the computed wait time is 0, and
caller 1 is admitted while the window count equals the limit — the
admission count is not below the per-window limit at that acquire. -/
theorem C9_counterexample : ¬ WindowAdmissionRespected := by
  intro hW
  have r0 : RLReachable ⟨2, some 1⟩ 2 (rlInit ⟨2, some 1⟩ 2) := RLReachable.init
  have r1 : RLReachable ⟨2, some 1⟩ 2 rlS1 :=
    RLReachable.step _ (.start 0) _ r0 (RLStep.start (rlInit ⟨2, some 1⟩ 2) 0 (by decide))
  have r2 : RLReachable ⟨2, some 1⟩ 2 rlS2 :=
    RLReachable.step _ (.semAcq 0) _ r1 (RLStep.semAcq rlS1 0 (by decide) (by decide))
  have r3 : RLReachable ⟨2, some 1⟩ 2 rlS3 :=
    RLReachable.step _ (.bucket 0) _ r2
      (RLStep.bucketBelow rlS2 0 1 (by decide) rfl (by decide))
  have r4 : RLReachable ⟨2, some 1⟩ 2 rlS4 :=
    RLReachable.step _ (.tick 60) _ r3 (RLStep.tick rlS3 60 (by decide))
  have r5 : RLReachable ⟨2, some 1⟩ 2 rlS5 :=
    RLReachable.step _ (.start 1) _ r4 (RLStep.start rlS4 1 (by decide))
  have r6 : RLReachable ⟨2, some 1⟩ 2 rlS6 :=
    RLReachable.step _ (.semAcq 1) _ r5 (RLStep.semAcq rlS5 1 (by decide) (by decide))
  have st7 : RLStep ⟨2, some 1⟩ rlS6 (.bucket 1) rlS7 :=
    RLStep.bucketBoundary rlS6 1 1 0 [] (by decide) rfl (by decide) (by decide) (by decide)
  have hc := hW ⟨2, some 1⟩ 2 rlS6 1 rlS7 1 rfl r6 st7
  exact absurd hc (by decide)

end Backtest
